import Mathlib

/-!
Verification of the CUPyDO interface partition and global-indexing manager
(`cupydo/manager.py`, class `Manager`) and of the VLM adapter's nodal index
function (`cupydo/interfaces/VLM.py`, `VLMSolver.getNodalIndex`).

The Python construction is embedded shallowly: each collective operation
(all-gather, all-reduce) is computed directly from the list of per-rank
inputs, since all processes run the identical deterministic sequence in
lockstep.  Python `dict`s are modelled as association lists in insertion
order, where inserting an existing key updates the value in place and
inserting a fresh key appends.  Python integers are `Int`/`Nat`.
-/

set_option autoImplicit false

namespace CUPyDO

/-- The interface a solver-facing collaborator exposes to the Manager:
`nNodes` (local interface nodes, halo included), `nPhysicalNodes`
(local non-halo nodes), `haloNodeList` (the keys of the halo-node dict) and
`getNodalIndex` (local vertex position to solver-native node identifier). -/
structure SolverData where
  nNodes : Nat
  nPhysicalNodes : Nat
  haloNodeList : List Int
  getNodalIndex : Nat → Int

instance : Inhabited SolverData := ⟨⟨0, 0, [], fun _ => 0⟩⟩

/-- Per-rank inputs to a multi-process (`mpiComm != None`) construction.
`FluidSolver` is dereferenced unconditionally at manager.py lines 146 and
157 (`FluidSolver.haloNodeList`, `FluidSolver.nPhysicalNodes`), so a run
that completes requires a fluid collaborator on every rank; the solid
collaborator stays optional (its accesses are guarded by membership in
`solidSolverProcessors`, which in the multi-process branch is exactly the
set of ranks holding a solid solver). -/
structure ParRankInput where
  fluid : SolverData
  solid : Option SolverData

instance : Inhabited ParRankInput := ⟨⟨default, none⟩⟩

/-- `self.nLocalFluidInterfaceNodes` (manager.py line 95). -/
def nLocalFluidInterfaceNodes (ri : ParRankInput) : Nat := ri.fluid.nNodes

/-- `self.nLocalFluidInterfacePhysicalNodes` (manager.py line 157). -/
def nLocalFluidInterfacePhysicalNodes (ri : ParRankInput) : Nat := ri.fluid.nPhysicalNodes

/-- `self.nLocalSolidInterfaceNodes` (manager.py line 105; stays 0 when the
solid collaborator is absent, line 84). -/
def nLocalSolidInterfaceNodes (ri : ParRankInput) : Nat :=
  match ri.solid with
  | some s => s.nNodes
  | none => 0

/-- `self.nLocalSolidInterfacePhysicalNodes` (manager.py line 159; stays 0
when the rank holds no solid solver, line 85). -/
def nLocalSolidInterfacePhysicalNodes (ri : ParRankInput) : Nat :=
  match ri.solid with
  | some s => s.nPhysicalNodes
  | none => 0

/-- This rank's fluid halo-node keys (manager.py line 146). -/
def fluidHaloNodes (ri : ParRankInput) : List Int := ri.fluid.haloNodeList

/-- This rank's solid halo-node keys (manager.py lines 147-148; the empty
dict of line 87 when no solid solver is held). -/
def solidHaloNodes (ri : ParRankInput) : List Int :=
  match ri.solid with
  | some s => s.haloNodeList
  | none => []

/-- The solid `getNodalIndex` callback; the default branch is never applied
because the vertex loop bound `nLocalSolidInterfaceNodes` is 0 when the
solid collaborator is absent (manager.py line 228). -/
def solidGetNodalIndex (ri : ParRankInput) : Nat → Int :=
  match ri.solid with
  | some s => s.getNodalIndex
  | none => fun _ => 0

/-- `self.haveFluidInterface` (manager.py lines 96-97); the fluid solver is
present on every rank of the multi-process model. -/
def haveFluidInterface (ri : ParRankInput) : Bool :=
  nLocalFluidInterfaceNodes ri != 0

/-- `self.haveSolidSolver` (manager.py line 104). -/
def haveSolidSolver (ri : ParRankInput) : Bool := ri.solid.isSome

/-- `self.haveSolidInterface` (manager.py lines 106-107). -/
def haveSolidInterface (ri : ParRankInput) : Bool :=
  haveSolidSolver ri && (nLocalSolidInterfaceNodes ri != 0)

/-- `self.fluidInterfaceProcessors` (manager.py lines 122-136): the ranks
whose all-gathered contribution was not the sentinel -1, in rank order. -/
def fluidInterfaceProcessors (inputs : List ParRankInput) : List Nat :=
  (List.range inputs.length).filter fun r => haveFluidInterface (inputs.getD r default)

/-- `self.solidInterfaceProcessors` (manager.py lines 126-137). -/
def solidInterfaceProcessors (inputs : List ParRankInput) : List Nat :=
  (List.range inputs.length).filter fun r => haveSolidInterface (inputs.getD r default)

/-- `self.solidSolverProcessors` (manager.py lines 118-135). -/
def solidSolverProcessors (inputs : List ParRankInput) : List Nat :=
  (List.range inputs.length).filter fun r => haveSolidSolver (inputs.getD r default)

/-- `self.fluidSolverProcessors` (manager.py lines 114-134); every rank of
the multi-process model holds a fluid solver. -/
def fluidSolverProcessors (inputs : List ParRankInput) : List Nat :=
  List.range inputs.length

/-- `self.fluidPhysicalInterfaceNodesDistribution` (manager.py line 175):
all-gather of the per-rank fluid physical node counts. -/
def fluidPhysicalInterfaceNodesDistribution (inputs : List ParRankInput) : List Nat :=
  inputs.map nLocalFluidInterfacePhysicalNodes

/-- `self.solidPhysicalInterfaceNodesDistribution` (manager.py line 176). -/
def solidPhysicalInterfaceNodesDistribution (inputs : List ParRankInput) : List Nat :=
  inputs.map nLocalSolidInterfacePhysicalNodes

/-- `self.nFluidInterfacePhysicalNodes` (manager.py line 163):
all-reduce-sum of the per-rank fluid physical node counts. -/
def nFluidInterfacePhysicalNodes (inputs : List ParRankInput) : Nat :=
  (inputs.map nLocalFluidInterfacePhysicalNodes).sum

/-- `self.nSolidInterfacePhysicalNodes` (manager.py line 165). -/
def nSolidInterfacePhysicalNodes (inputs : List ParRankInput) : Nat :=
  (inputs.map nLocalSolidInterfacePhysicalNodes).sum

/-- The exclusive prefix sum `sum_(i<r) l[i]`, as accumulated by the loop
`for iProc in range(myid)` at manager.py lines 187-188. -/
def prefixSum (l : List Nat) (r : Nat) : Nat := (l.take r).sum

/-- `self.fluidGlobalIndexRange` in the multi-process branch (manager.py
lines 182-194): rank `myid` contributes `(start, start + nPhysical - 1)`
when it lies in `fluidInterfaceProcessors`, the placeholder `(0, 0)`
otherwise, and the tuples are all-gathered in rank order. -/
def fluidGlobalIndexRange (inputs : List ParRankInput) : List (Int × Int) :=
  (List.range inputs.length).map fun myid =>
    if myid ∈ fluidInterfaceProcessors inputs then
      let globalIndexStart : Int :=
        prefixSum (fluidPhysicalInterfaceNodesDistribution inputs) myid
      (globalIndexStart,
        globalIndexStart + (nLocalFluidInterfacePhysicalNodes (inputs.getD myid default) : Int) - 1)
    else (0, 0)

/-- `self.solidGlobalIndexRange` in the multi-process branch (manager.py
lines 196-205).  Note line 200: the stop is computed from
`nLocalSolidInterfaceNodes` (halo nodes included), unlike the fluid side
which uses the physical count. -/
def solidGlobalIndexRange (inputs : List ParRankInput) : List (Int × Int) :=
  (List.range inputs.length).map fun myid =>
    if myid ∈ solidInterfaceProcessors inputs then
      let globalIndexStart : Int :=
        prefixSum (solidPhysicalInterfaceNodesDistribution inputs) myid
      (globalIndexStart,
        globalIndexStart + (nLocalSolidInterfaceNodes (inputs.getD myid default) : Int) - 1)
    else (0, 0)

/-! ### Python dicts as association lists -/

/-- A Python `dict` with `int` keys and values, as an association list in
insertion order. -/
abbrev Dict := List (Int × Int)

/-- Key list of a dict, in insertion order. -/
def dkeys (d : Dict) : List Int := d.map Prod.fst

/-- Value list of a dict, in insertion order. -/
def dvalues (d : Dict) : List Int := d.map Prod.snd

/-- Python `d[k] = v`: update in place when `k` is already a key, append
otherwise. -/
def dinsert (d : Dict) (k v : Int) : Dict :=
  if k ∈ dkeys d then d.map fun p => if p.1 = k then (k, v) else p
  else d ++ [(k, v)]

/-- Python `d[k]` / `k in d`. -/
def dlookup (d : Dict) (k : Int) : Option Int :=
  (d.find? fun p => p.1 == k).map Prod.snd

/-! ### Local map construction and merge (manager.py lines 215-248) -/

/-- The vertex loop of manager.py lines 217-224 (respectively 226-234),
run for vertex positions `0, ..., n-1` in increasing order: fetch the
solver-native identifier `f iVertex`; skip it when it lies in this rank's
own halo set; otherwise bind it to `start + localIndex` and bump
`localIndex`.  Returns the dict together with the final `localIndex`. -/
def buildIndexingGo (f : Nat → Int) (halo : List Int) (start : Int) : Nat → Dict × Nat
  | 0 => ([], 0)
  | n + 1 =>
    let (d, localIndex) := buildIndexingGo f halo start n
    let nodeIndex := f n
    if nodeIndex ∈ halo then (d, localIndex)
    else (dinsert d nodeIndex (start + localIndex), localIndex + 1)

/-- The partial solver-id → global-index dict one rank contributes. -/
def buildIndexing (f : Nat → Int) (halo : List Int) (start : Int) (n : Nat) : Dict :=
  (buildIndexingGo f halo start n).1

/-- `fluidIndexing_temp` as computed on rank `myid` (manager.py lines
216-224); `getGlobalIndex('fluid', myid, localIndex)` adds `localIndex` to
the start of rank `myid`'s gathered range. -/
def fluidIndexingTemp (inputs : List ParRankInput) (myid : Nat) : Dict :=
  buildIndexing (inputs.getD myid default).fluid.getNodalIndex
    (fluidHaloNodes (inputs.getD myid default))
    ((fluidGlobalIndexRange inputs).getD myid (0, 0)).1
    (nLocalFluidInterfaceNodes (inputs.getD myid default))

/-- `solidIndexing_temp` as computed on rank `myid` (manager.py lines
226-234). -/
def solidIndexingTemp (inputs : List ParRankInput) (myid : Nat) : Dict :=
  buildIndexing (solidGetNodalIndex (inputs.getD myid default))
    (solidHaloNodes (inputs.getD myid default))
    ((solidGlobalIndexRange inputs).getD myid (0, 0)).1
    (nLocalSolidInterfaceNodes (inputs.getD myid default))

/-- The inner merge loop `for key, value in part.items(): dst[key] = value`
(manager.py lines 240-241 and 243-244). -/
def dictUpdate (acc d : Dict) : Dict :=
  d.foldl (fun a p => dinsert a p.1 p.2) acc

/-- The merge of the all-gathered partial dicts, in rank order
(manager.py lines 236-244). -/
def mergeIndexing (parts : List Dict) : Dict :=
  parts.foldl dictUpdate []

/-- `self.fluidIndexing` after the merge (manager.py lines 242-244). -/
def fluidIndexing (inputs : List ParRankInput) : Dict :=
  mergeIndexing ((List.range inputs.length).map (fluidIndexingTemp inputs))

/-- `self.solidIndexing` after the merge (manager.py lines 239-241). -/
def solidIndexing (inputs : List ParRankInput) : Dict :=
  mergeIndexing ((List.range inputs.length).map (solidIndexingTemp inputs))

/-! ### The constructed manager and its accessors -/

/-- The two sides of the interface (the `domain` strings `'fluid'` and
`'solid'` accepted by `Manager.getGlobalIndex`). -/
inductive Domain where
  | fluid
  | solid
deriving DecidableEq, Repr

/-- The group-wide state a completed `Manager.__init__` leaves behind
(the fields every rank agrees on after the collective exchanges). -/
structure ManagerState where
  fluidSolverProcessors : List Nat
  solidSolverProcessors : List Nat
  fluidInterfaceProcessors : List Nat
  solidInterfaceProcessors : List Nat
  fluidHaloNodesList : List (List Int)
  solidHaloNodesList : List (List Int)
  nFluidInterfacePhysicalNodes : Nat
  nSolidInterfacePhysicalNodes : Nat
  fluidPhysicalInterfaceNodesDistribution : List Nat
  solidPhysicalInterfaceNodesDistribution : List Nat
  fluidGlobalIndexRange : List (Int × Int)
  solidGlobalIndexRange : List (Int × Int)
  fluidIndexing : Dict
  solidIndexing : Dict
deriving Repr

/-- `Manager.getGlobalIndex(domain, iProc, iLocalVertex)` (manager.py
lines 250-261): the start of the stored per-rank range plus the local
offset — a pure read of `self`, no table lookup. -/
def ManagerState.getGlobalIndex (m : ManagerState) (domain : Domain)
    (iProc : Nat) (iLocalVertex : Nat) : Int :=
  let globalStartIndex : Int :=
    match domain with
    | .fluid => (m.fluidGlobalIndexRange.getD iProc (0, 0)).1
    | .solid => (m.solidGlobalIndexRange.getD iProc (0, 0)).1
  globalStartIndex + iLocalVertex

/-- The manager state a multi-process construction (`mpiComm != None`)
produces, assembled from the collective results above. -/
def buildManagerPar (inputs : List ParRankInput) : ManagerState where
  fluidSolverProcessors := fluidSolverProcessors inputs
  solidSolverProcessors := solidSolverProcessors inputs
  fluidInterfaceProcessors := fluidInterfaceProcessors inputs
  solidInterfaceProcessors := solidInterfaceProcessors inputs
  fluidHaloNodesList := inputs.map fluidHaloNodes
  solidHaloNodesList := inputs.map solidHaloNodes
  nFluidInterfacePhysicalNodes := nFluidInterfacePhysicalNodes inputs
  nSolidInterfacePhysicalNodes := nSolidInterfacePhysicalNodes inputs
  fluidPhysicalInterfaceNodesDistribution := fluidPhysicalInterfaceNodesDistribution inputs
  solidPhysicalInterfaceNodesDistribution := solidPhysicalInterfaceNodesDistribution inputs
  fluidGlobalIndexRange := fluidGlobalIndexRange inputs
  solidGlobalIndexRange := solidGlobalIndexRange inputs
  fluidIndexing := fluidIndexing inputs
  solidIndexing := solidIndexing inputs

/-! ### Single-process construction (`mpiComm == None`) -/

/-- `Manager.__init__` with `mpiComm == None`, where every collective is
the identity and every processor list is `np.zeros(1)`, i.e. `[0]`
(manager.py lines 138-142).  Attribute accesses on an absent collaborator
raise: `FluidSolver.haloNodeList` is read unconditionally at line 146, and
`SolidSolver.haloNodeList` at line 148 behind the test
`myid in self.solidSolverProcessors`, which in this branch is `0 in [0]`
and thus always true — so an absent solid collaborator also raises. -/
def buildManagerSerial (FluidSolver SolidSolver : Option SolverData) :
    Except String ManagerState :=
  match FluidSolver with
  | none => .error "AttributeError: 'NoneType' object has no attribute 'haloNodeList'"
  | some fs =>
    match SolidSolver with
    | none => .error "AttributeError: 'NoneType' object has no attribute 'haloNodeList'"
    | some ss =>
      -- lines 152-154: the gathered halo lists collapse to [{}] in serial mode
      let fluidHaloNodesListS : List (List Int) := [[]]
      let solidHaloNodesListS : List (List Int) := [[]]
      -- lines 157-159 and 162-165: locals and their identity all-reduce
      let nFluidPhys : Nat := fs.nPhysicalNodes
      let nSolidPhys : Nat := ss.nPhysicalNodes
      -- lines 207-213: one trivial range per side
      let fluidRange : List (Int × Int) := [(0, (nFluidPhys : Int) - 1)]
      let solidRange : List (Int × Int) := [(0, (nSolidPhys : Int) - 1)]
      -- lines 215-234 with myid = 0 and the empty serial halo dicts,
      -- lines 245-247: the merge is a plain copy
      let fluidIndexingS : Dict :=
        buildIndexing fs.getNodalIndex (fluidHaloNodesListS.getD 0 [])
          ((fluidRange.getD 0 (0, 0)).1) fs.nNodes
      let solidIndexingS : Dict :=
        buildIndexing ss.getNodalIndex (solidHaloNodesListS.getD 0 [])
          ((solidRange.getD 0 (0, 0)).1) ss.nNodes
      .ok
        { fluidSolverProcessors := [0]
          solidSolverProcessors := [0]
          fluidInterfaceProcessors := [0]
          solidInterfaceProcessors := [0]
          fluidHaloNodesList := fluidHaloNodesListS
          solidHaloNodesList := solidHaloNodesListS
          nFluidInterfacePhysicalNodes := nFluidPhys
          nSolidInterfacePhysicalNodes := nSolidPhys
          fluidPhysicalInterfaceNodesDistribution := [nFluidPhys]
          solidPhysicalInterfaceNodesDistribution := [nSolidPhys]
          fluidGlobalIndexRange := fluidRange
          solidGlobalIndexRange := solidRange
          fluidIndexing := fluidIndexingS
          solidIndexing := solidIndexingS }

/-! ### The VLM adapter's nodal index (VLM.py lines 96-107) -/

namespace VLMSolver

/-- `VLMSolver.getNodalIndex(iVertex)` (VLM.py lines 96-107), with the
wing and flap vertex counts `wingNvert = self.coreSolver.data.wing.nvert`
and `flapNvert = self.coreSolver.data.flap.nvert` as parameters: aileron
vertices are offset into the band above 20000, flap vertices into the band
above 10000, wing vertices map to themselves. -/
def getNodalIndex (wingNvert flapNvert : Nat) (iVertex : Nat) : Int :=
  if iVertex > wingNvert + flapNvert then
    (iVertex : Int) + 20000 - wingNvert - flapNvert
  else if iVertex > wingNvert then
    (iVertex : Int) + 10000 - wingNvert
  else
    (iVertex : Int)

end VLMSolver

/-! ### Specification-side descriptions of the construction

The remaining definitions restate, in closed form, what the loops above
compute; the lemmas that follow connect the two. -/

/-- The solver-native identifiers a rank reports for its vertex positions,
in increasing vertex order. -/
def reportedIds (f : Nat → Int) (n : Nat) : List Int :=
  (List.range n).map f

/-- The non-halo (physical) identifiers a rank reports, in increasing
vertex order: exactly the identifiers its vertex loop does not skip. -/
def nonHaloIds (f : Nat → Int) (halo : List Int) (n : Nat) : List Int :=
  (reportedIds f n).filter fun id => decide (id ∉ halo)

/-- Pair a list of identifiers with consecutive global indices starting at
`start`. -/
def withIndices (start : Int) : List Int → Dict
  | [] => []
  | id :: rest => (id, start) :: withIndices (start + 1) rest

/-- Rank-level non-halo fluid identifiers. -/
def rankNonHaloFluidIds (ri : ParRankInput) : List Int :=
  nonHaloIds ri.fluid.getNodalIndex (fluidHaloNodes ri) (nLocalFluidInterfaceNodes ri)

/-- Rank-level non-halo solid identifiers. -/
def rankNonHaloSolidIds (ri : ParRankInput) : List Int :=
  nonHaloIds (solidGetNodalIndex ri) (solidHaloNodes ri) (nLocalSolidInterfaceNodes ri)

/-- All physical fluid identifiers of the group, rank by rank. -/
def allFluidIds (inputs : List ParRankInput) : List Int :=
  (inputs.map rankNonHaloFluidIds).flatten

/-- All physical solid identifiers of the group, rank by rank. -/
def allSolidIds (inputs : List ParRankInput) : List Int :=
  (inputs.map rankNonHaloSolidIds).flatten

/-- The decomposition contract on the fluid side: each rank's physical
identifier list has exactly the advertised physical length, and the
physical identifiers are globally pairwise distinct (in particular
distinct within a rank and disjoint across ranks). -/
def FluidSideValid (inputs : List ParRankInput) : Prop :=
  (∀ ri ∈ inputs, (rankNonHaloFluidIds ri).length = nLocalFluidInterfacePhysicalNodes ri)
    ∧ (allFluidIds inputs).Nodup

/-- The decomposition contract on the solid side. -/
def SolidSideValid (inputs : List ParRankInput) : Prop :=
  (∀ ri ∈ inputs, (rankNonHaloSolidIds ri).length = nLocalSolidInterfacePhysicalNodes ri)
    ∧ (allSolidIds inputs).Nodup

/-! ### Lemmas about dicts and `withIndices` -/

theorem dkeys_append (d₁ d₂ : Dict) : dkeys (d₁ ++ d₂) = dkeys d₁ ++ dkeys d₂ := by
  simp [dkeys]

theorem dinsert_of_not_mem {d : Dict} {k : Int} (v : Int) (h : k ∉ dkeys d) :
    dinsert d k v = d ++ [(k, v)] := by
  simp [dinsert, h]

theorem dkeys_withIndices (start : Int) (l : List Int) :
    dkeys (withIndices start l) = l := by
  induction l generalizing start with
  | nil => rfl
  | cons x xs ih => simp [withIndices, dkeys] at ih ⊢; exact ih _

theorem length_withIndices (start : Int) (l : List Int) :
    (withIndices start l).length = l.length := by
  induction l generalizing start with
  | nil => rfl
  | cons x xs ih => simp [withIndices, ih]

theorem withIndices_append (start : Int) (l₁ l₂ : List Int) :
    withIndices start (l₁ ++ l₂)
      = withIndices start l₁ ++ withIndices (start + l₁.length) l₂ := by
  induction l₁ generalizing start with
  | nil => simp [withIndices]
  | cons x xs ih =>
    simp only [List.cons_append, withIndices, List.length_cons, List.append_eq]
    rw [ih (start + 1)]
    have h : start + 1 + (xs.length : Int) = start + ((xs.length : Int) + 1) := by ring
    push_cast
    rw [h]

theorem dvalues_withIndices (start : Int) (l : List Int) :
    dvalues (withIndices start l) = (List.range l.length).map fun k : Nat => start + (k : Int) := by
  induction l generalizing start with
  | nil => rfl
  | cons x xs ih =>
    simp only [withIndices, dvalues, List.map_cons, List.length_cons, List.range_succ_eq_map,
      List.map_map]
    refine List.cons_eq_cons.mpr ⟨by simp, ?_⟩
    have hxs : List.map Prod.snd (withIndices (start + 1) xs) = dvalues (withIndices (start + 1) xs) := rfl
    rw [hxs, ih (start + 1)]
    apply List.map_congr_left
    intro a _
    simp only [Function.comp_apply]
    push_cast
    ring

/-! ### The vertex loop computes `withIndices` of the non-halo identifiers -/

theorem reportedIds_succ (f : Nat → Int) (n : Nat) :
    reportedIds f (n + 1) = reportedIds f n ++ [f n] := by
  simp [reportedIds, List.range_succ]

theorem nonHaloIds_succ (f : Nat → Int) (halo : List Int) (n : Nat) :
    nonHaloIds f halo (n + 1)
      = nonHaloIds f halo n ++ if f n ∈ halo then [] else [f n] := by
  by_cases h : f n ∈ halo <;>
    simp [nonHaloIds, reportedIds_succ, List.filter_append, h]

theorem buildIndexingGo_eq (f : Nat → Int) (halo : List Int) (start : Int) (n : Nat)
    (hnd : (nonHaloIds f halo n).Nodup) :
    buildIndexingGo f halo start n
      = (withIndices start (nonHaloIds f halo n), (nonHaloIds f halo n).length) := by
  induction n with
  | zero => simp [buildIndexingGo, nonHaloIds, reportedIds, withIndices]
  | succ n ih =>
    by_cases h : f n ∈ halo
    · have hids : nonHaloIds f halo (n + 1) = nonHaloIds f halo n := by
        simp [nonHaloIds_succ, h]
      rw [hids] at hnd ⊢
      simp [buildIndexingGo, ih hnd, h]
    · have hids : nonHaloIds f halo (n + 1) = nonHaloIds f halo n ++ [f n] := by
        simp [nonHaloIds_succ, h]
      rw [hids] at hnd ⊢
      rcases List.nodup_append.mp hnd with ⟨hnd', -, hdisj⟩
      have hnotmem : f n ∉ nonHaloIds f halo n := fun hm => hdisj hm (by simp)
      simp only [buildIndexingGo, ih hnd', h, if_neg h]
      rw [dinsert_of_not_mem _ (by rw [dkeys_withIndices]; exact hnotmem)]
      rw [withIndices_append]
      simp [withIndices]

theorem buildIndexing_eq (f : Nat → Int) (halo : List Int) (start : Int) (n : Nat)
    (hnd : (nonHaloIds f halo n).Nodup) :
    buildIndexing f halo start n = withIndices start (nonHaloIds f halo n) := by
  simp [buildIndexing, buildIndexingGo_eq f halo start n hnd]

theorem dkeys_dinsert_subset (d : Dict) (k v : Int) :
    dkeys (dinsert d k v) ⊆ dkeys d ++ [k] := by
  intro a ha
  by_cases hk : k ∈ dkeys d
  · rw [dinsert, if_pos hk] at ha
    simp only [dkeys, List.map_map, List.mem_map] at ha
    obtain ⟨p, hp, rfl⟩ := ha
    by_cases hp1 : p.1 = k
    · simp [hp1]
    · simp only [Function.comp_apply, if_neg hp1]
      exact List.mem_append_left _ (List.mem_map_of_mem _ hp)
  · rw [dinsert, if_neg hk, dkeys_append] at ha
    exact ha

/-- The vertex loop never hands a key of its own halo set to the dict. -/
theorem not_mem_dkeys_buildIndexing (f : Nat → Int) (halo : List Int) (start : Int)
    (n : Nat) {h : Int} (hh : h ∈ halo) :
    h ∉ dkeys (buildIndexing f halo start n) := by
  have main : ∀ m : Nat, ∀ k ∈ dkeys (buildIndexingGo f halo start m).1, k ∉ halo := by
    intro m
    induction m with
    | zero => intro k hk; simp [buildIndexingGo, dkeys] at hk
    | succ m ih =>
      intro k hk
      simp only [buildIndexingGo] at hk
      by_cases hfm : f m ∈ halo
      · rw [if_pos hfm] at hk
        exact ih k hk
      · rw [if_neg hfm] at hk
        rcases List.mem_append.mp (dkeys_dinsert_subset _ _ _ hk) with h1 | h1
        · exact ih k h1
        · simp at h1; subst h1; exact hfm
  intro hmem
  exact main n h hmem hh

/-! ### The merge concatenates key-disjoint partial dicts -/

theorem dictUpdate_cons (acc : Dict) (p : Int × Int) (d : Dict) :
    dictUpdate acc (p :: d) = dictUpdate (dinsert acc p.1 p.2) d := rfl

theorem dictUpdate_eq_append (acc d : Dict) (h : (dkeys (acc ++ d)).Nodup) :
    dictUpdate acc d = acc ++ d := by
  induction d generalizing acc with
  | nil => simp [dictUpdate]
  | cons p d' ih =>
    have hkeys : dkeys (acc ++ p :: d') = dkeys acc ++ p.1 :: dkeys d' := by
      simp [dkeys]
    have hk : p.1 ∉ dkeys acc := by
      rw [hkeys] at h
      rcases List.nodup_append.mp h with ⟨-, -, hdisj⟩
      exact fun hm => hdisj hm (by simp)
    have h2 : (dkeys ((acc ++ [p]) ++ d')).Nodup := by
      rw [← List.append_cons]
      exact h
    have hins : dinsert acc p.1 p.2 = acc ++ [p] := dinsert_of_not_mem _ hk
    rw [dictUpdate_cons, hins, ih _ h2, ← List.append_cons]

theorem foldl_dictUpdate_eq (parts : List Dict) (acc : Dict)
    (h : (dkeys (acc ++ parts.flatten)).Nodup) :
    parts.foldl dictUpdate acc = acc ++ parts.flatten := by
  induction parts generalizing acc with
  | nil => simp [List.flatten]
  | cons d parts' ih =>
    have hassoc : acc ++ (d :: parts').flatten = (acc ++ d) ++ parts'.flatten := by
      simp [List.flatten_cons, List.append_assoc]
    rw [hassoc] at h
    have hsub : (dkeys (acc ++ d)).Nodup := by
      have hs : List.Sublist (dkeys (acc ++ d)) (dkeys ((acc ++ d) ++ parts'.flatten)) := by
        simp only [dkeys]
        exact (List.sublist_append_left _ _).map _
      exact h.sublist hs
    rw [List.foldl_cons, dictUpdate_eq_append acc d hsub, ih (acc ++ d) h, hassoc]

theorem mergeIndexing_eq_flatten (parts : List Dict)
    (h : (dkeys parts.flatten).Nodup) :
    mergeIndexing parts = parts.flatten := by
  have := foldl_dictUpdate_eq parts [] (by simpa using h)
  simpa [mergeIndexing] using this

/-! ### Prefix sums and list indexing helpers -/

theorem prefixSum_zero (l : List Nat) : prefixSum l 0 = 0 := rfl

theorem prefixSum_cons (x : Nat) (l : List Nat) (r : Nat) :
    prefixSum (x :: l) (r + 1) = x + prefixSum l r := by
  simp [prefixSum]

theorem prefixSum_succ_of_lt (l : List Nat) (r : Nat) (hr : r < l.length) :
    prefixSum l (r + 1) = prefixSum l r + l.getD r 0 := by
  induction l generalizing r with
  | nil => simp at hr
  | cons x xs ih =>
    cases r with
    | zero => simp [prefixSum]
    | succ r =>
      have hr' : r < xs.length := by simpa using hr
      simp only [prefixSum_cons, ih r hr', List.getD_cons_succ]
      omega

theorem prefixSum_mono (l : List Nat) {a b : Nat} (h : a ≤ b) :
    prefixSum l a ≤ prefixSum l b := by
  induction l generalizing a b with
  | nil => simp [prefixSum]
  | cons x xs ih =>
    cases a with
    | zero => simp [prefixSum_zero]
    | succ a =>
      cases b with
      | zero => omega
      | succ b =>
        have := ih (Nat.succ_le_succ_iff.mp h)
        simp only [prefixSum_cons]
        omega

theorem prefixSum_le_sum (l : List Nat) (r : Nat) : prefixSum l r ≤ l.sum := by
  have h : (l.take r).sum + (l.drop r).sum = l.sum := by
    rw [← List.sum_append, List.take_append_drop]
  rw [prefixSum, ← h]
  exact Nat.le_add_right _ _

theorem prefixSum_length (l : List Nat) : prefixSum l l.length = l.sum := by
  simp [prefixSum]

/-- The prefix-sum intervals of a distribution vector tile `[0, sum)`. -/
theorem prefixSum_tile (dist : List Nat) (i : Nat) :
    i < dist.sum
      ↔ ∃ r, r < dist.length ∧ prefixSum dist r ≤ i ∧ i < prefixSum dist r + dist.getD r 0 := by
  induction dist generalizing i with
  | nil => simp [prefixSum]
  | cons d rest ih =>
    constructor
    · intro hi
      by_cases hd : i < d
      · exact ⟨0, by simp, by simp [prefixSum_zero], by simpa [prefixSum_zero] using hd⟩
      · have hrest : i - d < rest.sum := by
          simp only [List.sum_cons] at hi
          omega
        obtain ⟨r, hr, h1, h2⟩ := (ih (i - d)).mp hrest
        refine ⟨r + 1, by simpa using hr, ?_, ?_⟩
        · rw [prefixSum_cons]; omega
        · rw [prefixSum_cons]
          simp only [List.getD_cons_succ]
          omega
    · rintro ⟨r, hr, h1, h2⟩
      cases r with
      | zero =>
        simp only [prefixSum_zero, List.getD_cons_zero] at h2
        simp only [List.sum_cons]
        omega
      | succ r =>
        rw [prefixSum_cons] at h1 h2
        simp only [List.getD_cons_succ] at h2
        have hr' : r < rest.length := by simpa using hr
        have := (ih (i - d)).mpr ⟨r, hr', by omega, by omega⟩
        simp only [List.sum_cons]
        omega

theorem getD_map_range {α : Type} (g : Nat → α) {n r : Nat} (d : α) (hr : r < n) :
    ((List.range n).map g).getD r d = g r := by
  rw [List.getD_eq_getElem?_getD, List.getElem?_map, List.getElem?_range hr]
  rfl

theorem getD_map_of_lt {α β : Type} (g : α → β) (l : List α) {r : Nat} (d : α) (d' : β)
    (hr : r < l.length) :
    (l.map g).getD r d' = g (l.getD r d) := by
  rw [List.getD_eq_getElem?_getD, List.getElem?_map,
    List.getElem?_eq_getElem hr, List.getD_eq_getElem?_getD, List.getElem?_eq_getElem hr]
  rfl

theorem map_range_getD_eq_self {α : Type} (l : List α) (d : α) :
    (List.range l.length).map (fun r => l.getD r d) = l := by
  induction l with
  | nil => simp
  | cons x xs ih =>
    rw [List.length_cons, List.range_succ_eq_map, List.map_cons, List.map_map]
    have h1 : (x :: xs).getD 0 d = x := rfl
    have h2 : ((fun r => (x :: xs).getD r d) ∘ Nat.succ) = fun r => xs.getD r d := rfl
    rw [h1, h2, ih]

/-! ### The stored ranges, rank by rank -/

theorem mem_fluidInterfaceProcessors (inputs : List ParRankInput) (r : Nat) :
    r ∈ fluidInterfaceProcessors inputs
      ↔ r < inputs.length ∧ haveFluidInterface (inputs.getD r default) := by
  simp [fluidInterfaceProcessors, List.mem_filter]

theorem mem_solidInterfaceProcessors (inputs : List ParRankInput) (r : Nat) :
    r ∈ solidInterfaceProcessors inputs
      ↔ r < inputs.length ∧ haveSolidInterface (inputs.getD r default) := by
  simp [solidInterfaceProcessors, List.mem_filter]

theorem fluidGlobalIndexRange_getD (inputs : List ParRankInput) {r : Nat}
    (hr : r < inputs.length) :
    (fluidGlobalIndexRange inputs).getD r (0, 0)
      = if haveFluidInterface (inputs.getD r default) then
          ((prefixSum (fluidPhysicalInterfaceNodesDistribution inputs) r : Int),
            (prefixSum (fluidPhysicalInterfaceNodesDistribution inputs) r : Int)
              + (nLocalFluidInterfacePhysicalNodes (inputs.getD r default) : Int) - 1)
        else (0, 0) := by
  rw [fluidGlobalIndexRange, getD_map_range _ _ hr]
  by_cases hh : haveFluidInterface (inputs.getD r default)
  · rw [if_pos ((mem_fluidInterfaceProcessors inputs r).mpr ⟨hr, hh⟩), if_pos hh]
  · rw [if_neg (fun hm => hh ((mem_fluidInterfaceProcessors inputs r).mp hm).2), if_neg hh]

theorem solidGlobalIndexRange_getD (inputs : List ParRankInput) {r : Nat}
    (hr : r < inputs.length) :
    (solidGlobalIndexRange inputs).getD r (0, 0)
      = if haveSolidInterface (inputs.getD r default) then
          ((prefixSum (solidPhysicalInterfaceNodesDistribution inputs) r : Int),
            (prefixSum (solidPhysicalInterfaceNodesDistribution inputs) r : Int)
              + (nLocalSolidInterfaceNodes (inputs.getD r default) : Int) - 1)
        else (0, 0) := by
  rw [solidGlobalIndexRange, getD_map_range _ _ hr]
  by_cases hh : haveSolidInterface (inputs.getD r default)
  · rw [if_pos ((mem_solidInterfaceProcessors inputs r).mpr ⟨hr, hh⟩), if_pos hh]
  · rw [if_neg (fun hm => hh ((mem_solidInterfaceProcessors inputs r).mp hm).2), if_neg hh]

/-! ### Stitching the per-rank partial dicts into one indexed list -/

theorem flatten_withIndices (blocks : List (List Int)) (s0 : Int) :
    ((List.range blocks.length).map fun r =>
        withIndices (s0 + (prefixSum (blocks.map List.length) r : Int)) (blocks.getD r [])).flatten
      = withIndices s0 blocks.flatten := by
  induction blocks generalizing s0 with
  | nil => simp [withIndices]
  | cons b bs ih =>
    rw [List.length_cons, List.range_succ_eq_map, List.map_cons, List.map_map,
      List.flatten_cons, List.flatten_cons, withIndices_append]
    have hhead : withIndices (s0 + (prefixSum ((b :: bs).map List.length) 0 : Int))
        ((b :: bs).getD 0 []) = withIndices s0 b := by
      simp [prefixSum_zero]
    rw [hhead]
    congr 1
    have hmap : ((fun r =>
          withIndices (s0 + (prefixSum ((b :: bs).map List.length) r : Int)) ((b :: bs).getD r []))
            ∘ Nat.succ)
        = fun r =>
          withIndices ((s0 + (b.length : Int)) + (prefixSum (bs.map List.length) r : Int))
            (bs.getD r []) := by
      funext r
      simp only [Function.comp_apply, List.map_cons, prefixSum_cons, List.getD_cons_succ]
      congr 1
      push_cast
      ring
    rw [hmap, ih (s0 + (b.length : Int))]

/-! ### Structure of the merged per-side maps -/

theorem haveFluidInterface_iff (ri : ParRankInput) :
    haveFluidInterface ri = true ↔ nLocalFluidInterfaceNodes ri ≠ 0 := by
  simp [haveFluidInterface]

theorem haveSolidInterface_iff (ri : ParRankInput) :
    haveSolidInterface ri = true ↔ nLocalSolidInterfaceNodes ri ≠ 0 := by
  cases hs : ri.solid <;>
    simp [haveSolidInterface, haveSolidSolver, nLocalSolidInterfaceNodes, hs]

theorem getD_mem_of_lt {α : Type} (l : List α) {r : Nat} (d : α) (hr : r < l.length) :
    l.getD r d ∈ l := by
  rw [List.getD_eq_getElem l d hr]
  exact List.getElem_mem hr

/-- One rank's partial fluid dict pairs its non-halo identifiers, in
vertex order, with consecutive indices from its stored range start. -/
theorem fluidIndexingTemp_eq (inputs : List ParRankInput) (t : Nat)
    (hndt : (rankNonHaloFluidIds (inputs.getD t default)).Nodup) :
    fluidIndexingTemp inputs t
      = withIndices ((fluidGlobalIndexRange inputs).getD t (0, 0)).1
          (rankNonHaloFluidIds (inputs.getD t default)) := by
  rw [fluidIndexingTemp, buildIndexing_eq _ _ _ _ hndt]
  rfl

/-- One rank's partial solid dict pairs its non-halo identifiers, in
vertex order, with consecutive indices from its stored range start. -/
theorem solidIndexingTemp_eq (inputs : List ParRankInput) (t : Nat)
    (hndt : (rankNonHaloSolidIds (inputs.getD t default)).Nodup) :
    solidIndexingTemp inputs t
      = withIndices ((solidGlobalIndexRange inputs).getD t (0, 0)).1
          (rankNonHaloSolidIds (inputs.getD t default)) := by
  rw [solidIndexingTemp, buildIndexing_eq _ _ _ _ hndt]
  rfl

/-- Concatenating the per-rank partial fluid dicts in rank order yields
all physical fluid identifiers indexed consecutively from 0. -/
theorem fluidParts_flatten_eq (inputs : List ParRankInput) (hv : FluidSideValid inputs) :
    ((List.range inputs.length).map (fluidIndexingTemp inputs)).flatten
      = withIndices 0 (allFluidIds inputs) := by
  obtain ⟨hlen, hnd⟩ := hv
  have hflat : (inputs.map rankNonHaloFluidIds).flatten = allFluidIds inputs := rfl
  have hdist : fluidPhysicalInterfaceNodesDistribution inputs
      = (inputs.map rankNonHaloFluidIds).map List.length := by
    rw [List.map_map]
    apply List.map_congr_left
    intro ri hri
    exact (hlen ri hri).symm
  have hparts : (List.range inputs.length).map (fluidIndexingTemp inputs)
      = (List.range (inputs.map rankNonHaloFluidIds).length).map fun r =>
          withIndices
            ((0 : Int) + (prefixSum ((inputs.map rankNonHaloFluidIds).map List.length) r : Int))
            ((inputs.map rankNonHaloFluidIds).getD r []) := by
    rw [List.length_map]
    apply List.map_congr_left
    intro r hr
    rw [List.mem_range] at hr
    have hget : (inputs.map rankNonHaloFluidIds).getD r []
        = rankNonHaloFluidIds (inputs.getD r default) :=
      getD_map_of_lt _ _ default [] hr
    have hndr : (rankNonHaloFluidIds (inputs.getD r default)).Nodup := by
      refine (List.nodup_flatten.mp hnd).1 _ ?_
      rw [← hget]
      exact getD_mem_of_lt _ [] (by simpa using hr)
    rw [fluidIndexingTemp, buildIndexing_eq _ _ _ _ hndr, hget]
    by_cases hh : haveFluidInterface (inputs.getD r default)
    · rw [fluidGlobalIndexRange_getD inputs hr, if_pos hh, ← hdist]
      norm_num
      rfl
    · have h0 : nLocalFluidInterfaceNodes (inputs.getD r default) = 0 := by
        by_contra hne
        exact hh ((haveFluidInterface_iff _).mpr hne)
      have hids : rankNonHaloFluidIds (inputs.getD r default) = [] := by
        rw [rankNonHaloFluidIds, h0]
        rfl
      rw [h0, hids]
      rfl
  rw [hparts, flatten_withIndices (inputs.map rankNonHaloFluidIds) 0, hflat]

/-- Under the fluid decomposition contract the merged fluid map is the list
of all physical fluid identifiers, in rank-then-vertex order, paired with
the consecutive global indices `0, 1, 2, ...`. -/
theorem fluidIndexing_eq (inputs : List ParRankInput) (hv : FluidSideValid inputs) :
    fluidIndexing inputs = withIndices 0 (allFluidIds inputs) := by
  rw [fluidIndexing, mergeIndexing_eq_flatten, fluidParts_flatten_eq inputs hv]
  rw [fluidParts_flatten_eq inputs hv, dkeys_withIndices]
  exact hv.2

/-- Under the solid decomposition contract the merged solid map is the
list of all physical solid identifiers, in rank-then-vertex order, paired
with the consecutive global indices `0, 1, 2, ...` (the slip in the stored
solid stop values does not matter here: the vertex loop only reads the
range starts). -/
theorem solidParts_flatten_eq (inputs : List ParRankInput) (hv : SolidSideValid inputs) :
    ((List.range inputs.length).map (solidIndexingTemp inputs)).flatten
      = withIndices 0 (allSolidIds inputs) := by
  obtain ⟨hlen, hnd⟩ := hv
  have hflat : (inputs.map rankNonHaloSolidIds).flatten = allSolidIds inputs := rfl
  have hdist : solidPhysicalInterfaceNodesDistribution inputs
      = (inputs.map rankNonHaloSolidIds).map List.length := by
    rw [List.map_map]
    apply List.map_congr_left
    intro ri hri
    exact (hlen ri hri).symm
  have hparts : (List.range inputs.length).map (solidIndexingTemp inputs)
      = (List.range (inputs.map rankNonHaloSolidIds).length).map fun r =>
          withIndices
            ((0 : Int) + (prefixSum ((inputs.map rankNonHaloSolidIds).map List.length) r : Int))
            ((inputs.map rankNonHaloSolidIds).getD r []) := by
    rw [List.length_map]
    apply List.map_congr_left
    intro r hr
    rw [List.mem_range] at hr
    have hget : (inputs.map rankNonHaloSolidIds).getD r []
        = rankNonHaloSolidIds (inputs.getD r default) :=
      getD_map_of_lt _ _ default [] hr
    have hndr : (rankNonHaloSolidIds (inputs.getD r default)).Nodup := by
      refine (List.nodup_flatten.mp hnd).1 _ ?_
      rw [← hget]
      exact getD_mem_of_lt _ [] (by simpa using hr)
    rw [solidIndexingTemp, buildIndexing_eq _ _ _ _ hndr, hget]
    by_cases hh : haveSolidInterface (inputs.getD r default)
    · rw [solidGlobalIndexRange_getD inputs hr, if_pos hh, ← hdist]
      norm_num
      rfl
    · have h0 : nLocalSolidInterfaceNodes (inputs.getD r default) = 0 := by
        by_contra hne
        exact hh ((haveSolidInterface_iff _).mpr hne)
      have hids : rankNonHaloSolidIds (inputs.getD r default) = [] := by
        rw [rankNonHaloSolidIds, h0]
        rfl
      rw [h0, hids]
      rfl
  rw [hparts, flatten_withIndices (inputs.map rankNonHaloSolidIds) 0, hflat]

/-- Under the solid decomposition contract the merged solid map is the
list of all physical solid identifiers, in rank-then-vertex order, paired
with the consecutive global indices `0, 1, 2, ...`. -/
theorem solidIndexing_eq (inputs : List ParRankInput) (hv : SolidSideValid inputs) :
    solidIndexing inputs = withIndices 0 (allSolidIds inputs) := by
  rw [solidIndexing, mergeIndexing_eq_flatten, solidParts_flatten_eq inputs hv]
  rw [solidParts_flatten_eq inputs hv, dkeys_withIndices]
  exact hv.2

/-! ### Lookup facts -/

theorem dlookup_cons (p : Int × Int) (d : Dict) (h : Int) :
    dlookup (p :: d) h = if p.1 == h then some p.2 else dlookup d h := by
  by_cases hp : p.1 = h <;> simp [dlookup, List.find?_cons, hp]

theorem dlookup_append_left (d₁ d₂ : Dict) (h : Int) (hmem : h ∈ dkeys d₁) :
    dlookup (d₁ ++ d₂) h = dlookup d₁ h := by
  induction d₁ with
  | nil => simp [dkeys] at hmem
  | cons p d ih =>
    rw [List.cons_append, dlookup_cons, dlookup_cons]
    by_cases hp : p.1 = h
    · simp [hp]
    · have hb : (p.1 == h) = false := by simp [hp]
      rw [hb]
      simp only [Bool.false_eq_true, if_false]
      apply ih
      have hck : dkeys (p :: d) = p.1 :: dkeys d := rfl
      rw [hck] at hmem
      rcases List.mem_cons.mp hmem with h1 | h1
      · exact absurd h1.symm hp
      · exact h1

theorem dlookup_append_right (d₁ d₂ : Dict) (h : Int) (hnot : h ∉ dkeys d₁) :
    dlookup (d₁ ++ d₂) h = dlookup d₂ h := by
  induction d₁ with
  | nil => simp
  | cons p d ih =>
    have hck : dkeys (p :: d) = p.1 :: dkeys d := rfl
    rw [hck] at hnot
    have hp : p.1 ≠ h := fun he => hnot (he ▸ List.mem_cons_self _ _)
    have hb : (p.1 == h) = false := by simp [hp]
    rw [List.cons_append, dlookup_cons, hb]
    simp only [Bool.false_eq_true, if_false]
    exact ih fun hm => hnot (List.mem_cons_of_mem _ hm)

theorem mem_dkeys_of_mem_parts {parts : List Dict} {b : Dict} (hb : b ∈ parts)
    {h : Int} (hmem : h ∈ dkeys b) : h ∈ dkeys parts.flatten := by
  simp only [dkeys, List.mem_map] at hmem ⊢
  obtain ⟨pa, hpa, rfl⟩ := hmem
  exact ⟨pa, List.mem_flatten.mpr ⟨b, hb, hpa⟩, rfl⟩

/-- With globally distinct keys, looking a key up in the concatenation of
the partial dicts gives exactly what the contributing dict holds. -/
theorem dlookup_flatten_of_mem (parts : List Dict) {s : Nat} (hs : s < parts.length)
    (h : Int) (hmem : h ∈ dkeys (parts.getD s []))
    (hnd : (dkeys parts.flatten).Nodup) :
    dlookup parts.flatten h = dlookup (parts.getD s []) h := by
  induction parts generalizing s with
  | nil => simp at hs
  | cons p ps ih =>
    cases s with
    | zero =>
      simp only [List.getD_cons_zero] at hmem ⊢
      rw [List.flatten_cons]
      exact dlookup_append_left _ _ _ hmem
    | succ s =>
      simp only [List.getD_cons_succ] at hmem ⊢
      have hs' : s < ps.length := by simpa using hs
      have hmem_flat : h ∈ dkeys ps.flatten :=
        mem_dkeys_of_mem_parts (getD_mem_of_lt ps [] hs') hmem
      rw [List.flatten_cons] at hnd
      rw [List.flatten_cons]
      have hnotp : h ∉ dkeys p := by
        rw [dkeys_append] at hnd
        rcases List.nodup_append.mp hnd with ⟨-, -, hdisj⟩
        exact fun hp => hdisj hp hmem_flat
      rw [dlookup_append_right _ _ _ hnotp]
      refine ih hs' hmem ?_
      rw [dkeys_append] at hnd
      exact (List.nodup_append.mp hnd).2.1

/-! ### Sizes and values of the merged maps -/

theorem length_allFluidIds (inputs : List ParRankInput)
    (hlen : ∀ ri ∈ inputs, (rankNonHaloFluidIds ri).length = nLocalFluidInterfacePhysicalNodes ri) :
    (allFluidIds inputs).length = nFluidInterfacePhysicalNodes inputs := by
  rw [allFluidIds, List.length_flatten, List.map_map, nFluidInterfacePhysicalNodes]
  congr 1
  apply List.map_congr_left
  intro ri hri
  exact hlen ri hri

theorem length_allSolidIds (inputs : List ParRankInput)
    (hlen : ∀ ri ∈ inputs, (rankNonHaloSolidIds ri).length = nLocalSolidInterfacePhysicalNodes ri) :
    (allSolidIds inputs).length = nSolidInterfacePhysicalNodes inputs := by
  rw [allSolidIds, List.length_flatten, List.map_map, nSolidInterfacePhysicalNodes]
  congr 1
  apply List.map_congr_left
  intro ri hri
  exact hlen ri hri

theorem dvalues_withIndices_nodup (start : Int) (l : List Int) :
    (dvalues (withIndices start l)).Nodup := by
  rw [dvalues_withIndices]
  refine (List.nodup_range _).map ?_
  intro a b hab
  dsimp only at hab
  omega

/-- A rank's advertised physical count never exceeds its total local node
count (the physical identifiers are a filtered sublist of the reported
ones). -/
theorem fluid_phys_le_nNodes (ri : ParRankInput)
    (h : (rankNonHaloFluidIds ri).length = nLocalFluidInterfacePhysicalNodes ri) :
    nLocalFluidInterfacePhysicalNodes ri ≤ nLocalFluidInterfaceNodes ri := by
  rw [← h, rankNonHaloFluidIds, nonHaloIds]
  calc ((reportedIds ri.fluid.getNodalIndex (nLocalFluidInterfaceNodes ri)).filter _).length
      ≤ (reportedIds ri.fluid.getNodalIndex (nLocalFluidInterfaceNodes ri)).length :=
        List.length_filter_le _ _
    _ = nLocalFluidInterfaceNodes ri := by simp [reportedIds]

theorem nonHaloIds_nil_halo (f : Nat → Int) (n : Nat) :
    nonHaloIds f [] n = reportedIds f n := by
  simp [nonHaloIds]

/-! ### Index ranges as integer intervals -/

/-- `i` lies in the inclusive `[start, stop]` pair `p`. -/
def memRange (p : Int × Int) (i : Int) : Prop := p.1 ≤ i ∧ i ≤ p.2

instance (p : Int × Int) (i : Int) : Decidable (memRange p i) := by
  unfold memRange
  infer_instance

instance (inputs : List ParRankInput) : Decidable (FluidSideValid inputs) := by
  unfold FluidSideValid
  infer_instance

instance (inputs : List ParRankInput) : Decidable (SolidSideValid inputs) := by
  unfold SolidSideValid
  infer_instance

/-- Ranges of the shape the construction stores — `(S_r, S_r + d_r - 1)` on
hosting ranks, with `d_r = 0` on the others — are ordered and partition
`[0, sum - 1]` over the hosting ranks. -/
theorem ranges_partition_general (dist : List Nat) (ranges : List (Int × Int))
    (host : Nat → Prop)
    (hhost : ∀ r, r < dist.length → host r →
      ranges.getD r (0, 0)
        = ((prefixSum dist r : Int), (prefixSum dist r : Int) + (dist.getD r 0 : Int) - 1))
    (hnothost : ∀ r, r < dist.length → ¬host r → dist.getD r 0 = 0) :
    (∀ r s, r < dist.length → s < dist.length → host r → host s → r < s →
        (ranges.getD r (0, 0)).2 < (ranges.getD s (0, 0)).1)
    ∧ (∀ i : Int, (0 ≤ i ∧ i ≤ (dist.sum : Int) - 1)
        ↔ ∃ r, r < dist.length ∧ host r ∧ memRange (ranges.getD r (0, 0)) i) := by
  constructor
  · intro r s hr hs hhr hhs hrs
    rw [hhost r hr hhr, hhost s hs hhs]
    have h1 : prefixSum dist (r + 1) = prefixSum dist r + dist.getD r 0 :=
      prefixSum_succ_of_lt dist r hr
    have h2 : prefixSum dist (r + 1) ≤ prefixSum dist s := prefixSum_mono dist hrs
    simp only
    omega
  · intro i
    constructor
    · rintro ⟨h0, hup⟩
      have hlt : i.toNat < dist.sum := by omega
      obtain ⟨r, hr, ha, hb⟩ := (prefixSum_tile dist i.toNat).mp hlt
      have hdr : dist.getD r 0 ≠ 0 := by omega
      have hhr : host r := by
        by_contra hno
        exact hdr (hnothost r hr hno)
      refine ⟨r, hr, hhr, ?_⟩
      rw [hhost r hr hhr]
      simp only [memRange]
      omega
    · rintro ⟨r, hr, hhr, hmem⟩
      rw [hhost r hr hhr] at hmem
      simp only [memRange] at hmem
      have hsum : prefixSum dist r + dist.getD r 0 ≤ dist.sum := by
        rw [← prefixSum_succ_of_lt dist r hr]
        exact prefixSum_le_sum dist (r + 1)
      omega

/-! ### Side-generic views of the construction -/

/-- The per-rank halo set of a side (the dict `self.*HaloNodesList[myid]`
the vertex loop tests membership against). -/
def sideHaloNodes : Domain → ParRankInput → List Int
  | .fluid => fluidHaloNodes
  | .solid => solidHaloNodes

/-- The per-rank non-halo identifier list of a side. -/
def rankNonHaloSideIds : Domain → ParRankInput → List Int
  | .fluid => rankNonHaloFluidIds
  | .solid => rankNonHaloSolidIds

/-- All physical identifiers of a side, rank by rank. -/
def allSideIds (side : Domain) (inputs : List ParRankInput) : List Int :=
  match side with
  | .fluid => allFluidIds inputs
  | .solid => allSolidIds inputs

/-- The decomposition contract of a side. -/
def SideValid (side : Domain) (inputs : List ParRankInput) : Prop :=
  match side with
  | .fluid => FluidSideValid inputs
  | .solid => SolidSideValid inputs

/-- The partial dict rank `r` contributes on a side. -/
def sideIndexingTemp (side : Domain) (inputs : List ParRankInput) (r : Nat) : Dict :=
  match side with
  | .fluid => fluidIndexingTemp inputs r
  | .solid => solidIndexingTemp inputs r

/-- The merged map of a side. -/
def sideIndexing (side : Domain) (inputs : List ParRankInput) : Dict :=
  match side with
  | .fluid => fluidIndexing inputs
  | .solid => solidIndexing inputs

/-- The all-reduced total physical node count of a side. -/
def nSideInterfacePhysicalNodes (side : Domain) (inputs : List ParRankInput) : Nat :=
  match side with
  | .fluid => nFluidInterfacePhysicalNodes inputs
  | .solid => nSolidInterfacePhysicalNodes inputs

/-- The per-rank local physical node count of a side. -/
def nLocalSideInterfacePhysicalNodes (side : Domain) (ri : ParRankInput) : Nat :=
  match side with
  | .fluid => nLocalFluidInterfacePhysicalNodes ri
  | .solid => nLocalSolidInterfacePhysicalNodes ri

/-- The gathered per-rank index ranges of a side. -/
def sideGlobalIndexRange (side : Domain) (inputs : List ParRankInput) : List (Int × Int) :=
  match side with
  | .fluid => fluidGlobalIndexRange inputs
  | .solid => solidGlobalIndexRange inputs

theorem sideIndexing_eq (side : Domain) (inputs : List ParRankInput)
    (hv : SideValid side inputs) :
    sideIndexing side inputs = withIndices 0 (allSideIds side inputs) := by
  cases side
  · exact fluidIndexing_eq inputs hv
  · exact solidIndexing_eq inputs hv

theorem length_allSideIds (inputs : List ParRankInput) (side : Domain)
    (hv : SideValid side inputs) :
    (allSideIds side inputs).length = nSideInterfacePhysicalNodes side inputs := by
  cases side
  · exact length_allFluidIds inputs hv.1
  · exact length_allSolidIds inputs hv.1

/-! ### Hosting-rank range values in terms of the distribution vector -/

theorem fluidGlobalIndexRange_getD_host (inputs : List ParRankInput) {r : Nat}
    (hr : r < inputs.length) (hh : haveFluidInterface (inputs.getD r default) = true) :
    (fluidGlobalIndexRange inputs).getD r (0, 0)
      = ((prefixSum (fluidPhysicalInterfaceNodesDistribution inputs) r : Int),
          (prefixSum (fluidPhysicalInterfaceNodesDistribution inputs) r : Int)
            + ((fluidPhysicalInterfaceNodesDistribution inputs).getD r 0 : Int) - 1) := by
  rw [fluidGlobalIndexRange_getD inputs hr, if_pos hh]
  rw [fluidPhysicalInterfaceNodesDistribution,
    getD_map_of_lt nLocalFluidInterfacePhysicalNodes inputs default 0 hr]

theorem solidGlobalIndexRange_getD_host (inputs : List ParRankInput) {r : Nat}
    (hr : r < inputs.length) (hh : haveSolidInterface (inputs.getD r default) = true)
    (hnohalo : nLocalSolidInterfaceNodes (inputs.getD r default)
      = nLocalSolidInterfacePhysicalNodes (inputs.getD r default)) :
    (solidGlobalIndexRange inputs).getD r (0, 0)
      = ((prefixSum (solidPhysicalInterfaceNodesDistribution inputs) r : Int),
          (prefixSum (solidPhysicalInterfaceNodesDistribution inputs) r : Int)
            + ((solidPhysicalInterfaceNodesDistribution inputs).getD r 0 : Int) - 1) := by
  rw [solidGlobalIndexRange_getD inputs hr, if_pos hh, hnohalo]
  rw [solidPhysicalInterfaceNodesDistribution,
    getD_map_of_lt nLocalSolidInterfacePhysicalNodes inputs default 0 hr]

theorem fluid_dist_zero_of_not_host (inputs : List ParRankInput) {r : Nat}
    (hr : r < inputs.length)
    (hlen : ∀ ri ∈ inputs,
      (rankNonHaloFluidIds ri).length = nLocalFluidInterfacePhysicalNodes ri)
    (hh : ¬haveFluidInterface (inputs.getD r default) = true) :
    (fluidPhysicalInterfaceNodesDistribution inputs).getD r 0 = 0 := by
  rw [fluidPhysicalInterfaceNodesDistribution,
    getD_map_of_lt nLocalFluidInterfacePhysicalNodes inputs default 0 hr]
  have h0 : nLocalFluidInterfaceNodes (inputs.getD r default) = 0 := by
    by_contra hne
    exact hh ((haveFluidInterface_iff _).mpr hne)
  have hle := fluid_phys_le_nNodes (inputs.getD r default)
    (hlen _ (getD_mem_of_lt inputs default hr))
  omega

theorem solid_dist_zero_of_not_host (inputs : List ParRankInput) {r : Nat}
    (hr : r < inputs.length)
    (hnohalo : nLocalSolidInterfaceNodes (inputs.getD r default)
      = nLocalSolidInterfacePhysicalNodes (inputs.getD r default))
    (hh : ¬haveSolidInterface (inputs.getD r default) = true) :
    (solidPhysicalInterfaceNodesDistribution inputs).getD r 0 = 0 := by
  rw [solidPhysicalInterfaceNodesDistribution,
    getD_map_of_lt nLocalSolidInterfacePhysicalNodes inputs default 0 hr]
  have h0 : nLocalSolidInterfaceNodes (inputs.getD r default) = 0 := by
    by_contra hne
    exact hh ((haveSolidInterface_iff _).mpr hne)
  omega

/-! ### Concrete scenarios -/

/-- Two ranks; rank 0's solid fragment reports 2 local nodes of which one
(identifier 5) is a halo copy, so its physical count is 1; rank 1's solid
fragment has one physical node. -/
def exC1 : List ParRankInput :=
  [⟨⟨1, 1, [], fun i => (i : Int)⟩, some ⟨2, 1, [5], fun i => 4 + (i : Int)⟩⟩,
   ⟨⟨1, 1, [], fun i => 10 + (i : Int)⟩, some ⟨1, 1, [], fun _ => 6⟩⟩]

/-- Two ranks satisfying both decomposition contracts: rank 1 hosts no
fluid interface nodes at all, and rank 0's solid fragment carries a halo
copy (identifier 5, owned physically by nobody here — the fluid side is
what exhibits the placeholder overlap; the solid side exhibits the
halo-inflated stop). -/
def exC2 : List ParRankInput :=
  [⟨⟨1, 1, [], fun _ => 0⟩, some ⟨2, 1, [5], fun i => 4 + (i : Int)⟩⟩,
   ⟨⟨0, 0, [], fun _ => 0⟩, some ⟨1, 1, [], fun _ => 6⟩⟩]

/-- Two ranks with no halo nodes anywhere: fluid counts `[1, 0]`, one
solid node on rank 0, no solid fragment on rank 1. -/
def exC2W : List ParRankInput :=
  [⟨⟨1, 1, [], fun _ => 0⟩, some ⟨1, 1, [], fun _ => 4⟩⟩,
   ⟨⟨0, 0, [], fun _ => 0⟩, none⟩]

/-- The 3-process scenario of the specification: fluid physical counts
`[4, 0, 6]`, rank 1 hosting no fluid interface nodes, no solid side. -/
def ex7 : List ParRankInput :=
  [⟨⟨4, 4, [], fun i => (i : Int)⟩, none⟩,
   ⟨⟨0, 0, [], fun _ => 0⟩, none⟩,
   ⟨⟨6, 6, [], fun i => 100 + (i : Int)⟩, none⟩]

/-! ### Claims C1, C2, C7: the stored index ranges -/

/-- C1: the claim states that on every side a rank hosting interface nodes
stores the range `(start, start + localPhysicalCount - 1)` with `start`
the exclusive prefix sum of the distribution vector.  This holds on the
fluid side, but the code computes the solid stop from the halo-inclusive
`nLocalSolidInterfaceNodes` (manager.py line 200): here rank 0 hosts solid
interface nodes, its exclusive prefix sum is 0 and its solid physical
count is 1, so the claimed range is `(0, 0)` — yet the code stores
`(0, 1)`. -/
theorem C1_solid_stop_eval :
    0 ∈ solidInterfaceProcessors exC1
    ∧ (solidGlobalIndexRange exC1).getD 0 (0, 0) = (0, 1)
    ∧ prefixSum (solidPhysicalInterfaceNodesDistribution exC1) 0 = 0
    ∧ nLocalSolidInterfacePhysicalNodes (exC1.getD 0 default) = 1
    ∧ ((solidGlobalIndexRange exC1).getD 0 (0, 0)).2
        ≠ (prefixSum (solidPhysicalInterfaceNodesDistribution exC1) 0 : Int)
          + (nLocalSolidInterfacePhysicalNodes (exC1.getD 0 default) : Int) - 1 := by
  decide

/-- C2: the claim — per-side ranges pairwise disjoint across ranks, a rank
with zero physical nodes owning an empty range — fails on a valid input:
on the fluid side rank 1 (zero nodes) stores the placeholder `(0, 0)`,
which contains index 0 just like rank 0's range does; on the solid side
rank 0's halo-inflated stop makes its range contain index 1, which also
lies in rank 1's range. -/
theorem C2_counterexample :
    FluidSideValid exC2 ∧ SolidSideValid exC2
    ∧ nLocalFluidInterfacePhysicalNodes (exC2.getD 1 default) = 0
    ∧ memRange ((fluidGlobalIndexRange exC2).getD 0 (0, 0)) 0
    ∧ memRange ((fluidGlobalIndexRange exC2).getD 1 (0, 0)) 0
    ∧ memRange ((solidGlobalIndexRange exC2).getD 0 (0, 0)) 1
    ∧ memRange ((solidGlobalIndexRange exC2).getD 1 (0, 0)) 1 := by
  decide

/-- C2 (amended): for valid inputs, restricted to the ranks hosting
interface nodes on a side — and, on the solid side, provided no rank has
solid halo nodes (so that the line-200 stop formula agrees with the
physical count) — the stored ranges are strictly ordered by rank, they
partition exactly `[0, total - 1]`, a hosting rank with zero physical
nodes owns an empty range, and every non-hosting rank stores the
placeholder pair `(0, 0)` (which is not an empty interval). -/
theorem C2_amended_partition (inputs : List ParRankInput)
    (hF : FluidSideValid inputs) (hS : SolidSideValid inputs)
    (hnohalo : ∀ ri ∈ inputs,
      nLocalSolidInterfaceNodes ri = nLocalSolidInterfacePhysicalNodes ri) :
    ((∀ r s, r < inputs.length → s < inputs.length →
        haveFluidInterface (inputs.getD r default) = true →
        haveFluidInterface (inputs.getD s default) = true → r < s →
        ((fluidGlobalIndexRange inputs).getD r (0, 0)).2
          < ((fluidGlobalIndexRange inputs).getD s (0, 0)).1)
      ∧ (∀ i : Int, (0 ≤ i ∧ i ≤ (nFluidInterfacePhysicalNodes inputs : Int) - 1)
          ↔ ∃ r, r < inputs.length ∧ haveFluidInterface (inputs.getD r default) = true
              ∧ memRange ((fluidGlobalIndexRange inputs).getD r (0, 0)) i)
      ∧ (∀ r, r < inputs.length → haveFluidInterface (inputs.getD r default) = true →
          nLocalFluidInterfacePhysicalNodes (inputs.getD r default) = 0 →
          ∀ i : Int, ¬memRange ((fluidGlobalIndexRange inputs).getD r (0, 0)) i)
      ∧ (∀ r, r < inputs.length → ¬haveFluidInterface (inputs.getD r default) = true →
          (fluidGlobalIndexRange inputs).getD r (0, 0) = (0, 0)))
    ∧ ((∀ r s, r < inputs.length → s < inputs.length →
        haveSolidInterface (inputs.getD r default) = true →
        haveSolidInterface (inputs.getD s default) = true → r < s →
        ((solidGlobalIndexRange inputs).getD r (0, 0)).2
          < ((solidGlobalIndexRange inputs).getD s (0, 0)).1)
      ∧ (∀ i : Int, (0 ≤ i ∧ i ≤ (nSolidInterfacePhysicalNodes inputs : Int) - 1)
          ↔ ∃ r, r < inputs.length ∧ haveSolidInterface (inputs.getD r default) = true
              ∧ memRange ((solidGlobalIndexRange inputs).getD r (0, 0)) i)
      ∧ (∀ r, r < inputs.length → haveSolidInterface (inputs.getD r default) = true →
          nLocalSolidInterfacePhysicalNodes (inputs.getD r default) = 0 →
          ∀ i : Int, ¬memRange ((solidGlobalIndexRange inputs).getD r (0, 0)) i)
      ∧ (∀ r, r < inputs.length → ¬haveSolidInterface (inputs.getD r default) = true →
          (solidGlobalIndexRange inputs).getD r (0, 0) = (0, 0))) := by
  have hFld : (fluidPhysicalInterfaceNodesDistribution inputs).length = inputs.length := by
    rw [fluidPhysicalInterfaceNodesDistribution, List.length_map]
  have hSld : (solidPhysicalInterfaceNodesDistribution inputs).length = inputs.length := by
    rw [solidPhysicalInterfaceNodesDistribution, List.length_map]
  have hFmain := ranges_partition_general (fluidPhysicalInterfaceNodesDistribution inputs)
    (fluidGlobalIndexRange inputs)
    (fun r => haveFluidInterface (inputs.getD r default) = true)
    (fun r hr hh => fluidGlobalIndexRange_getD_host inputs (hFld ▸ hr) hh)
    (fun r hr hh => fluid_dist_zero_of_not_host inputs (hFld ▸ hr) hF.1 hh)
  have hSmain := ranges_partition_general (solidPhysicalInterfaceNodesDistribution inputs)
    (solidGlobalIndexRange inputs)
    (fun r => haveSolidInterface (inputs.getD r default) = true)
    (fun r hr hh => solidGlobalIndexRange_getD_host inputs (hSld ▸ hr) hh
      (hnohalo _ (getD_mem_of_lt inputs default (hSld ▸ hr))))
    (fun r hr hh => solid_dist_zero_of_not_host inputs (hSld ▸ hr)
      (hnohalo _ (getD_mem_of_lt inputs default (hSld ▸ hr))) hh)
  rw [hFld] at hFmain
  rw [hSld] at hSmain
  refine ⟨⟨hFmain.1, hFmain.2, ?_, ?_⟩, ⟨hSmain.1, hSmain.2, ?_, ?_⟩⟩
  · intro r hr hh h0 i
    rw [fluidGlobalIndexRange_getD_host inputs hr hh]
    have hd0 : (fluidPhysicalInterfaceNodesDistribution inputs).getD r 0 = 0 := by
      rw [fluidPhysicalInterfaceNodesDistribution,
        getD_map_of_lt nLocalFluidInterfacePhysicalNodes inputs default 0 hr, h0]
    rw [hd0]
    simp only [memRange]
    omega
  · intro r hr hh
    rw [fluidGlobalIndexRange_getD inputs hr, if_neg hh]
  · intro r hr hh h0 i
    rw [solidGlobalIndexRange_getD_host inputs hr hh
      (hnohalo _ (getD_mem_of_lt inputs default hr))]
    have hd0 : (solidPhysicalInterfaceNodesDistribution inputs).getD r 0 = 0 := by
      rw [solidPhysicalInterfaceNodesDistribution,
        getD_map_of_lt nLocalSolidInterfacePhysicalNodes inputs default 0 hr, h0]
    rw [hd0]
    simp only [memRange]
    omega
  · intro r hr hh
    rw [solidGlobalIndexRange_getD inputs hr, if_neg hh]

/-- C2 (amended) at a concrete valid halo-free input: the hypotheses hold
and, as one consequence, index 0 is owned by some fluid-hosting rank. -/
theorem C2_amended_partition_witness :
    FluidSideValid exC2W ∧ SolidSideValid exC2W
    ∧ (∀ ri ∈ exC2W, nLocalSolidInterfaceNodes ri = nLocalSolidInterfacePhysicalNodes ri)
    ∧ (∃ r, r < exC2W.length ∧ haveFluidInterface (exC2W.getD r default) = true
        ∧ memRange ((fluidGlobalIndexRange exC2W).getD r (0, 0)) 0) :=
  ⟨by decide, by decide, by decide,
    ((C2_amended_partition exC2W (by decide) (by decide) (by decide)).1.2.1 0).mp (by decide)⟩

/-- C7: on the 3-process scenario with fluid counts `[4, 0, 6]` the claim
says rank 1's range is empty; the code stores the placeholder `(0, 0)` for
rank 1, and that pair is not an empty interval — it contains index 0. -/
theorem C7_counterexample :
    fluidPhysicalInterfaceNodesDistribution ex7 = [4, 0, 6]
    ∧ nLocalFluidInterfaceNodes (ex7.getD 1 default) = 0
    ∧ nFluidInterfacePhysicalNodes ex7 = 10
    ∧ memRange ((fluidGlobalIndexRange ex7).getD 1 (0, 0)) 0 := by
  decide

/-- C7 (amended): the 3-process scenario yields the stored fluid ranges
`(0, 3)` for rank 0, the placeholder pair `(0, 0)` for rank 1 (not an
empty interval), `(4, 9)` for rank 2, and a fluid total of 10. -/
theorem C7_amended_ranges :
    fluidGlobalIndexRange ex7 = [(0, 3), (0, 0), (4, 9)]
    ∧ nFluidInterfacePhysicalNodes ex7 = 10 := by
  decide

/-! ### Claims C3, C5, C6: the merged maps -/

instance (side : Domain) (inputs : List ParRankInput) : Decidable (SideValid side inputs) :=
  match side with
  | .fluid => inferInstanceAs (Decidable (FluidSideValid inputs))
  | .solid => inferInstanceAs (Decidable (SolidSideValid inputs))

theorem rankNonHaloSideIds_nodup (side : Domain) (inputs : List ParRankInput)
    (hv : SideValid side inputs) {t : Nat} (ht : t < inputs.length) :
    (rankNonHaloSideIds side (inputs.getD t default)).Nodup := by
  cases side
  · have hb : rankNonHaloFluidIds (inputs.getD t default) ∈ inputs.map rankNonHaloFluidIds := by
      rw [← getD_map_of_lt rankNonHaloFluidIds inputs default [] ht]
      exact getD_mem_of_lt _ [] (by simpa using ht)
    exact (List.nodup_flatten.mp hv.2).1 _ hb
  · have hb : rankNonHaloSolidIds (inputs.getD t default) ∈ inputs.map rankNonHaloSolidIds := by
      rw [← getD_map_of_lt rankNonHaloSolidIds inputs default [] ht]
      exact getD_mem_of_lt _ [] (by simpa using ht)
    exact (List.nodup_flatten.mp hv.2).1 _ hb

theorem sideIndexingTemp_eq (side : Domain) (inputs : List ParRankInput) (t : Nat)
    (hnd : (rankNonHaloSideIds side (inputs.getD t default)).Nodup) :
    sideIndexingTemp side inputs t
      = withIndices ((sideGlobalIndexRange side inputs).getD t (0, 0)).1
          (rankNonHaloSideIds side (inputs.getD t default)) := by
  cases side
  · exact fluidIndexingTemp_eq inputs t hnd
  · exact solidIndexingTemp_eq inputs t hnd

/-- Two ranks realising the specification's halo scenario: rank 0's fluid
fragment reports identifiers 10, 11, 12 with 12 a halo copy, rank 1 owns
12 physically; on the solid side rank 0 reports 4, 5 with 5 a halo copy
owned by rank 1. -/
def exC3 : List ParRankInput :=
  [⟨⟨3, 2, [12], fun i => 10 + (i : Int)⟩, some ⟨2, 1, [5], fun i => 4 + (i : Int)⟩⟩,
   ⟨⟨1, 1, [], fun _ => 12⟩, some ⟨1, 1, [], fun _ => 5⟩⟩]

/-- C3: for valid inputs, on each side the merged local-to-global map has
exactly `total` entries — one per physical node of the whole group — with
no duplicate keys and no duplicate values. -/
theorem C3_merged_map_shape (inputs : List ParRankInput)
    (hF : FluidSideValid inputs) (hS : SolidSideValid inputs) :
    ∀ side : Domain,
      (sideIndexing side inputs).length = nSideInterfacePhysicalNodes side inputs
      ∧ (dkeys (sideIndexing side inputs)).Nodup
      ∧ (dvalues (sideIndexing side inputs)).Nodup := by
  intro side
  have hv : SideValid side inputs := by cases side <;> [exact hF; exact hS]
  have h := sideIndexing_eq side inputs hv
  refine ⟨?_, ?_, ?_⟩
  · rw [h, length_withIndices, length_allSideIds inputs side hv]
  · rw [h, dkeys_withIndices]
    cases side <;> exact hv.2
  · rw [h]
    exact dvalues_withIndices_nodup 0 _

/-- C3 at the concrete halo scenario: the contracts hold and the fluid map
has 3 entries with distinct keys and values. -/
theorem C3_merged_map_shape_witness :
    FluidSideValid exC3 ∧ SolidSideValid exC3
    ∧ ((sideIndexing .fluid exC3).length = nSideInterfacePhysicalNodes .fluid exC3
        ∧ (dkeys (sideIndexing .fluid exC3)).Nodup
        ∧ (dvalues (sideIndexing .fluid exC3)).Nodup) :=
  ⟨by decide, by decide, C3_merged_map_shape exC3 (by decide) (by decide) Domain.fluid⟩

/-- C5: on any side, an identifier `h` in rank `r`'s own halo set is never
a key of the partial dict rank `r` contributes; every rank's partial dict
assigns its non-halo identifiers the consecutive indices of its own range
start, in increasing vertex order; and under the decomposition contract a
halo identifier owned physically by rank `s` does appear in the merged
map, with exactly the entry rank `s` contributed. -/
theorem C5_halo_exclusion (inputs : List ParRankInput) (side : Domain) (r s : Nat)
    (h : Int) (hr : r < inputs.length) (hs : s < inputs.length)
    (hv : SideValid side inputs)
    (hhalo : h ∈ sideHaloNodes side (inputs.getD r default))
    (hown : h ∈ rankNonHaloSideIds side (inputs.getD s default)) :
    h ∉ dkeys (sideIndexingTemp side inputs r)
    ∧ (∀ t, t < inputs.length →
        sideIndexingTemp side inputs t
          = withIndices ((sideGlobalIndexRange side inputs).getD t (0, 0)).1
              (rankNonHaloSideIds side (inputs.getD t default)))
    ∧ h ∈ dkeys (sideIndexing side inputs)
    ∧ dlookup (sideIndexing side inputs) h = dlookup (sideIndexingTemp side inputs s) h := by
  refine ⟨?_, ?_, ?_, ?_⟩
  · cases side
    · exact not_mem_dkeys_buildIndexing _ _ _ _ hhalo
    · exact not_mem_dkeys_buildIndexing _ _ _ _ hhalo
  · intro t ht
    exact sideIndexingTemp_eq side inputs t (rankNonHaloSideIds_nodup side inputs hv ht)
  · rw [sideIndexing_eq side inputs hv, dkeys_withIndices]
    cases side
    · exact List.mem_flatten.mpr
        ⟨rankNonHaloFluidIds (inputs.getD s default),
          List.mem_map_of_mem _ (getD_mem_of_lt inputs default hs), hown⟩
    · exact List.mem_flatten.mpr
        ⟨rankNonHaloSolidIds (inputs.getD s default),
          List.mem_map_of_mem _ (getD_mem_of_lt inputs default hs), hown⟩
  · have hmemtemp : h ∈ dkeys (sideIndexingTemp side inputs s) := by
      rw [sideIndexingTemp_eq side inputs s (rankNonHaloSideIds_nodup side inputs hv hs),
        dkeys_withIndices]
      exact hown
    cases side
    · have hkeysnd :
          (dkeys ((List.range inputs.length).map (fluidIndexingTemp inputs)).flatten).Nodup := by
        rw [fluidParts_flatten_eq inputs hv, dkeys_withIndices]
        exact hv.2
      have hgetD : ((List.range inputs.length).map (fluidIndexingTemp inputs)).getD s []
          = fluidIndexingTemp inputs s := getD_map_range _ [] hs
      have hlook := dlookup_flatten_of_mem
        ((List.range inputs.length).map (fluidIndexingTemp inputs))
        (by simpa using hs) h (by rw [hgetD]; exact hmemtemp) hkeysnd
      rw [hgetD] at hlook
      calc dlookup (sideIndexing .fluid inputs) h
          = dlookup (mergeIndexing ((List.range inputs.length).map (fluidIndexingTemp inputs))) h :=
            rfl
        _ = dlookup ((List.range inputs.length).map (fluidIndexingTemp inputs)).flatten h := by
            rw [mergeIndexing_eq_flatten _ hkeysnd]
        _ = dlookup (fluidIndexingTemp inputs s) h := hlook
    · have hkeysnd :
          (dkeys ((List.range inputs.length).map (solidIndexingTemp inputs)).flatten).Nodup := by
        rw [solidParts_flatten_eq inputs hv, dkeys_withIndices]
        exact hv.2
      have hgetD : ((List.range inputs.length).map (solidIndexingTemp inputs)).getD s []
          = solidIndexingTemp inputs s := getD_map_range _ [] hs
      have hlook := dlookup_flatten_of_mem
        ((List.range inputs.length).map (solidIndexingTemp inputs))
        (by simpa using hs) h (by rw [hgetD]; exact hmemtemp) hkeysnd
      rw [hgetD] at hlook
      calc dlookup (sideIndexing .solid inputs) h
          = dlookup (mergeIndexing ((List.range inputs.length).map (solidIndexingTemp inputs))) h :=
            rfl
        _ = dlookup ((List.range inputs.length).map (solidIndexingTemp inputs)).flatten h := by
            rw [mergeIndexing_eq_flatten _ hkeysnd]
        _ = dlookup (solidIndexingTemp inputs s) h := hlook

/-- C5 at the concrete halo scenario: identifier 12 is halo on rank 0 and
physically owned by rank 1; it is absent from rank 0's contribution,
present in the merge, and resolves to rank 1's entry. -/
theorem C5_halo_exclusion_witness :
    FluidSideValid exC3
    ∧ (12 : Int) ∈ sideHaloNodes .fluid (exC3.getD 0 default)
    ∧ (12 : Int) ∈ rankNonHaloSideIds .fluid (exC3.getD 1 default)
    ∧ ((12 : Int) ∉ dkeys (sideIndexingTemp .fluid exC3 0)
        ∧ (∀ t, t < exC3.length →
            sideIndexingTemp .fluid exC3 t
              = withIndices ((sideGlobalIndexRange .fluid exC3).getD t (0, 0)).1
                  (rankNonHaloSideIds .fluid (exC3.getD t default)))
        ∧ (12 : Int) ∈ dkeys (sideIndexing .fluid exC3)
        ∧ dlookup (sideIndexing .fluid exC3) 12 = dlookup (sideIndexingTemp .fluid exC3 1) 12) :=
  ⟨by decide, by decide, by decide,
    C5_halo_exclusion exC3 .fluid 0 1 12 (by decide) (by decide) (by decide)
      (by decide) (by decide)⟩

/-- The single-process fluid collaborator induced by a multi-process
input assignment: it reports every physical fluid identifier of the group,
in the group's rank-then-vertex order, with no halo nodes. -/
def inducedSerialFluidSolver (inputs : List ParRankInput) : SolverData where
  nNodes := nFluidInterfacePhysicalNodes inputs
  nPhysicalNodes := nFluidInterfacePhysicalNodes inputs
  haloNodeList := []
  getNodalIndex := fun i => (allFluidIds inputs).getD i 0

/-- The single-process solid collaborator induced by a multi-process
input assignment. -/
def inducedSerialSolidSolver (inputs : List ParRankInput) : SolverData where
  nNodes := nSolidInterfacePhysicalNodes inputs
  nPhysicalNodes := nSolidInterfacePhysicalNodes inputs
  haloNodeList := []
  getNodalIndex := fun i => (allSolidIds inputs).getD i 0

/-- C6: a single-process construction presented with the same total node
distribution and the same solver-native identifiers (in the group's
rank-then-vertex order) produces exactly the merged per-side maps of the
multi-process construction: every identifier receives the same global
index in both executions. -/
theorem C6_serial_parallel_equiv (inputs : List ParRankInput)
    (hF : FluidSideValid inputs) (hS : SolidSideValid inputs) :
    (buildManagerSerial (some (inducedSerialFluidSolver inputs))
        (some (inducedSerialSolidSolver inputs))).map ManagerState.fluidIndexing
      = .ok (fluidIndexing inputs)
    ∧ (buildManagerSerial (some (inducedSerialFluidSolver inputs))
        (some (inducedSerialSolidSolver inputs))).map ManagerState.solidIndexing
      = .ok (solidIndexing inputs) := by
  constructor
  · show Except.ok
        (buildIndexing (fun i => (allFluidIds inputs).getD i 0) [] 0
          (nFluidInterfacePhysicalNodes inputs))
      = Except.ok (fluidIndexing inputs)
    have hchar : nonHaloIds (fun i => (allFluidIds inputs).getD i 0) []
        (nFluidInterfacePhysicalNodes inputs) = allFluidIds inputs := by
      rw [nonHaloIds_nil_halo, reportedIds, ← length_allFluidIds inputs hF.1,
        map_range_getD_eq_self]
    have hnd2 : (nonHaloIds (fun i => (allFluidIds inputs).getD i 0) []
        (nFluidInterfacePhysicalNodes inputs)).Nodup := by
      rw [hchar]
      exact hF.2
    rw [buildIndexing_eq _ _ _ _ hnd2, hchar, fluidIndexing_eq inputs hF]
  · show Except.ok
        (buildIndexing (fun i => (allSolidIds inputs).getD i 0) [] 0
          (nSolidInterfacePhysicalNodes inputs))
      = Except.ok (solidIndexing inputs)
    have hchar : nonHaloIds (fun i => (allSolidIds inputs).getD i 0) []
        (nSolidInterfacePhysicalNodes inputs) = allSolidIds inputs := by
      rw [nonHaloIds_nil_halo, reportedIds, ← length_allSolidIds inputs hS.1,
        map_range_getD_eq_self]
    have hnd2 : (nonHaloIds (fun i => (allSolidIds inputs).getD i 0) []
        (nSolidInterfacePhysicalNodes inputs)).Nodup := by
      rw [hchar]
      exact hS.2
    rw [buildIndexing_eq _ _ _ _ hnd2, hchar, solidIndexing_eq inputs hS]

/-- C6 at the concrete halo scenario. -/
theorem C6_serial_parallel_equiv_witness :
    FluidSideValid exC3 ∧ SolidSideValid exC3
    ∧ (buildManagerSerial (some (inducedSerialFluidSolver exC3))
        (some (inducedSerialSolidSolver exC3))).map ManagerState.fluidIndexing
      = .ok (fluidIndexing exC3)
    ∧ (buildManagerSerial (some (inducedSerialFluidSolver exC3))
        (some (inducedSerialSolidSolver exC3))).map ManagerState.solidIndexing
      = .ok (solidIndexing exC3) :=
  ⟨by decide, by decide,
    (C6_serial_parallel_equiv exC3 (by decide) (by decide)).1,
    (C6_serial_parallel_equiv exC3 (by decide) (by decide)).2⟩

/-! ### Claims C4, C8, C9, C10 -/

/-- A fluid collaborator with two physical interface nodes. -/
def exC4Fluid : SolverData := ⟨2, 2, [], fun i => (i : Int)⟩

/-- C4: the claim says a single-process construction with the solid
collaborator absent succeeds, with solid totals 0, empty solid role sets
and an empty solid map.  In the serial branch the code sets
`solidSolverProcessors = np.zeros(1)` (manager.py line 140), so `myid = 0`
passes the guard at line 147 and `SolidSolver.haloNodeList` is read off
the absent collaborator at line 148: construction raises AttributeError
instead of succeeding (and the solid role sets would be `[0]`, not
empty). -/
theorem C4_serial_no_solid_raises :
    buildManagerSerial (some exC4Fluid) none
      = .error "AttributeError: 'NoneType' object has no attribute 'haloNodeList'" := by
  rfl

/-- C8: on the constructed manager, for each side and rank and for every
local offset `k` below that rank's local physical count,
`getGlobalIndex(side, rank, k)` is exactly the stored range's start plus
`k`; the accessor is a pure read of the stored per-rank range (the
embedding is a function of the constructed state, so no state is
modified and no table is consulted). -/
theorem C8_getGlobalIndex_start_plus_offset (inputs : List ParRankInput) (side : Domain)
    (iProc k : Nat) (hp : iProc < inputs.length)
    (hk : k < nLocalSideInterfacePhysicalNodes side (inputs.getD iProc default)) :
    (buildManagerPar inputs).getGlobalIndex side iProc k
      = ((sideGlobalIndexRange side inputs).getD iProc (0, 0)).1 + (k : Int) := by
  cases side <;> rfl

/-- C8 at the concrete halo scenario, at rank 0 and offset 1. -/
theorem C8_getGlobalIndex_witness :
    0 < exC3.length
    ∧ 1 < nLocalSideInterfacePhysicalNodes .fluid (exC3.getD 0 default)
    ∧ (buildManagerPar exC3).getGlobalIndex .fluid 0 1
        = ((sideGlobalIndexRange .fluid exC3).getD 0 (0, 0)).1 + (1 : Int) :=
  ⟨by decide, by decide,
    C8_getGlobalIndex_start_plus_offset exC3 .fluid 0 1 (by decide) (by decide)⟩

/-- A fluid collaborator whose halo set holds identifier 99 although only
2 local nodes (identifiers 0 and 1) exist. -/
def exC9Fluid : SolverData := ⟨2, 2, [99], fun i => (i : Int)⟩

/-- A trivial solid collaborator. -/
def exC9Solid : SolverData := ⟨1, 1, [], fun _ => 7⟩

/-- C9: the claim says construction fails fatally when a collaborator's
halo set references an identifier outside the local node-count bound.
The code never checks halo identifiers against any bound: with a fluid
halo set holding 99 and only 2 local nodes, single-process construction
completes and returns a manager. -/
theorem C9_counterexample :
    (99 : Int) ∈ exC9Fluid.haloNodeList
    ∧ (exC9Fluid.nNodes : Int) ≤ 99
    ∧ (buildManagerSerial (some exC9Fluid) (some exC9Solid)).isOk = true := by
  decide

theorem buildIndexingGo_cons_irrelevant (f : Nat → Int) (halo : List Int) (h : Int)
    (start : Int) (n : Nat) (hne : ∀ i, i < n → f i ≠ h) :
    buildIndexingGo f (h :: halo) start n = buildIndexingGo f halo start n := by
  induction n with
  | zero => rfl
  | succ n ih =>
    simp only [buildIndexingGo, ih fun i hi => hne i (Nat.lt_succ_of_lt hi)]
    by_cases hc : f n ∈ halo
    · rw [if_pos hc, if_pos (List.mem_cons_of_mem _ hc)]
    · rw [if_neg hc, if_neg ?_]
      intro hm
      rcases List.mem_cons.mp hm with h1 | h1
      · exact hne n (Nat.lt_succ_self n) h1
      · exact hc h1

/-- C9 (amended): an out-of-range halo identifier is not detected — the
single-process construction completes whenever both collaborators are
present, and a halo identifier that matches no reported nodal index has
no effect whatsoever on the dict the vertex loop builds. -/
theorem C9_amended_no_check :
    (∀ fs ss : SolverData, (buildManagerSerial (some fs) (some ss)).isOk = true)
    ∧ (∀ (f : Nat → Int) (halo : List Int) (h : Int) (start : Int) (n : Nat),
        (∀ i, i < n → f i ≠ h) →
        buildIndexing f (h :: halo) start n = buildIndexing f halo start n) := by
  constructor
  · intro fs ss
    rfl
  · intro f halo h start n hne
    rw [buildIndexing, buildIndexing, buildIndexingGo_cons_irrelevant f halo h start n hne]

/-- C9 (amended) at the concrete out-of-range input: identifier 99 matches
no nodal index of the two-node fluid fragment, so the halo entry `99` is
inert and construction completes. -/
theorem C9_amended_no_check_witness :
    (buildManagerSerial (some exC9Fluid) (some exC9Solid)).isOk = true
    ∧ (∀ i, i < 2 → exC9Fluid.getNodalIndex i ≠ 99)
    ∧ buildIndexing exC9Fluid.getNodalIndex (99 :: []) 0 2
        = buildIndexing exC9Fluid.getNodalIndex [] 0 2 :=
  ⟨C9_amended_no_check.1 exC9Fluid exC9Solid, by decide,
    C9_amended_no_check.2 exC9Fluid.getNodalIndex [] 99 0 2 (by decide)⟩

/-- C10: the VLM adapter's nodal index map is injective whenever the wing
and flap vertex counts are each at most 10000: the wing band stays below
10001, the flap band inside (10000, 20000], the aileron band above 20000,
and each band is strictly increasing in the vertex position. -/
theorem C10_getNodalIndex_injective (wingNvert flapNvert i j : Nat)
    (hW : wingNvert ≤ 10000) (hF : flapNvert ≤ 10000) (hij : i ≠ j) :
    VLMSolver.getNodalIndex wingNvert flapNvert i
      ≠ VLMSolver.getNodalIndex wingNvert flapNvert j := by
  unfold VLMSolver.getNodalIndex
  split_ifs <;> omega

/-- C10 at wing count 2, flap count 1: vertex 0 (wing band) and vertex 3
(aileron band) receive distinct identifiers. -/
theorem C10_getNodalIndex_injective_witness :
    (2 : Nat) ≤ 10000 ∧ (1 : Nat) ≤ 10000 ∧ (0 : Nat) ≠ 3
    ∧ VLMSolver.getNodalIndex 2 1 0 ≠ VLMSolver.getNodalIndex 2 1 3 :=
  ⟨by decide, by decide, by decide,
    C10_getNodalIndex_injective 2 1 0 3 (by decide) (by decide) (by decide)⟩

end CUPyDO
